import Mathlib

/-!
# Verification of the placement-policy-vivarium storage simulator

A shallow embedding, in Lean 4, of the parts of the Rust sources relevant to
the set of specification claims under review:

* `src/main.rs` — the `PolicySimulator` event loop of the crate root
  (an older revision of the repository; its `Event` type is
  `Submit | Finished` and event insertion is plain `BTreeMap::insert`);
* `src/storage_stack/mod.rs` — `StorageStack::{process, queue_access,
  finish_access}` with the migration state machine and `blocks_on_hold`;
* `src/cache/mod.rs` plus `fifo.rs`, `lru.rs`, `noop.rs` — `CacheLogic`
  and the three eviction algorithms;
* `src/application/zipf.rs` — `BatchApp::{start, done}`;
* `src/placement/frequency.rs` — `FrequencyPolicy::migrate`.

Conventions of the embedding:

* Virtual time (`SystemTime` since the epoch) and `Duration` are both
  nanosecond counts, embedded as `Nat`.
* Rust `HashMap`s are embedded as association lists (`List (k × v)`);
  the unspecified iteration order of a `HashMap` is the list order.
* Rust `HashSet`s are embedded as duplicate-free lists.
* A Rust panic (`unwrap` on `None`/`Err`, `assert!` failure, `usize`
  underflow) is embedded as an `Option` result being `none`.
* The device latency table (`Device::Custom` in
  `src/storage_stack/devices.rs`) stores integral nanosecond latencies
  loaded from CSV micro-second records, and is embedded exactly.  The
  other `Device` variants (`Standard`, `Formula`, `Real`) compute with
  `f32` arithmetic, OS entropy (`rand::thread_rng`) or wall-clock
  measurements and are outside the embedding.
-/

namespace Vivarium

/-- A block identifier (`Block(usize)` in `src/main.rs`). -/
abbrev Block := Nat

/-- An internal disk identifier (`DiskId(usize)` in `src/storage_stack/mod.rs`). -/
abbrev DiskId := Nat

/-- Virtual time: nanoseconds since `UNIX_EPOCH` (`SystemTime`). -/
abbrev Time := Nat

/-- A span of virtual time: nanoseconds (`Duration`). -/
abbrev Dur := Nat

/-- `Access` from `src/main.rs`: a read or write on a block. -/
inductive Access where
  | read (b : Block)
  | write (b : Block)
deriving DecidableEq, Repr

/-- `Access::block` from `src/main.rs`. -/
def Access.block : Access → Block
  | .read b => b
  | .write b => b

/-- `Access::is_read` from `src/main.rs`. -/
def Access.is_read : Access → Bool
  | .read _ => true
  | .write _ => false

/-! ## Association-list operations standing for `HashMap` operations -/

/-- `HashMap::get` on an association list. -/
def lookupA {α β : Type} [DecidableEq α] : List (α × β) → α → Option β
  | [], _ => none
  | (k, v) :: rest, a => if k = a then some v else lookupA rest a

/-- `HashMap::insert` / assignment through `get_mut`: replace the value of an
existing key in place, otherwise append the binding. -/
def updateA {α β : Type} [DecidableEq α] : List (α × β) → α → β → List (α × β)
  | [], a, b => [(a, b)]
  | (k, v) :: rest, a, b =>
      if k = a then (a, b) :: rest else (k, v) :: updateA rest a b

/-- `HashMap::remove` on an association list. -/
def eraseA {α β : Type} [DecidableEq α] : List (α × β) → α → List (α × β)
  | [], _ => []
  | (k, v) :: rest, a => if k = a then rest else (k, v) :: eraseA rest a

/-- `HashSet::insert` on a duplicate-free list. -/
def hsInsert {α : Type} [DecidableEq α] (l : List α) (a : α) : List α :=
  if a ∈ l then l else a :: l

/-- `HashSet::remove` on a duplicate-free list. -/
def hsRemove {α : Type} [DecidableEq α] (l : List α) (a : α) : List α :=
  l.erase a

end Vivarium

namespace Vivarium.Sim0

/-!
## The event loop of `src/main.rs` (crate-root revision)

`PolicySimulator::run` keeps `events: BTreeMap<SystemTime, Event>` and
inserts events with `BTreeMap::insert`, which *replaces* any value already
stored under the same key.  Events generated in a batch (the initial
`application.start()` accesses, and the accesses returned by
`application.done`) are keyed at `base + idx` nanoseconds, `idx` being the
enumeration index within the batch (`src/main.rs:364-369` and `386-391`).
-/

open Vivarium

/-- `Origin` from `src/main.rs`. -/
inductive Origin where
  | fromCache
  | fromDisk (dev : String)
deriving DecidableEq, Repr

/-- `Event` from `src/main.rs` (the crate-root revision): an access
submission or a completed access. -/
inductive REvent where
  | submit (a : Access)
  | finished (issued : Time) (a : Access) (origin : Origin)
deriving DecidableEq, Repr

/-- The `events` field of `PolicySimulator`: a `BTreeMap<SystemTime, Event>`,
embedded as a list of (time, event) pairs kept strictly sorted by time. -/
abbrev EventMap := List (Time × REvent)

/-- `BTreeMap::insert` as performed by `PolicySimulator::run`
(`self.events.insert(then, ev)`, `src/main.rs:376`): a sorted insertion
which, when the key is already present, replaces the stored event. -/
def EventMap.insert : EventMap → Time → REvent → EventMap
  | [], t, e => [(t, e)]
  | (t', e') :: rest, t, e =>
      if t < t' then (t, e) :: (t', e') :: rest
      else if t = t' then (t, e) :: rest
      else (t', e') :: EventMap.insert rest t e

/-- The batch-scheduling pattern of `PolicySimulator::run`
(`src/main.rs:364-369`, `386-391`): the `idx`-th access of a batch is
inserted at `base + idx` nanoseconds. -/
def scheduleAccesses (m : EventMap) (base : Time) (accesses : List Access) : EventMap :=
  (accesses.enum).foldl
    (fun acc ie => EventMap.insert acc (base + ie.1) (.submit ie.2)) m

/-- Key membership of the event map. -/
def EventMap.keys (m : EventMap) : List Time := m.map Prod.fst

end Vivarium.Sim0

namespace Vivarium

open Vivarium.Sim0

/-- C1 counterexample input: a pre-existing event at time 10. -/
def c1PreMap : EventMap := [(10, .submit (.read 1))]

/-- **C1, counterexample.** `PolicySimulator::run` inserts events with
`BTreeMap::insert`: inserting a second event at an occupied key `10`
replaces — and thereby loses — the pre-existing event, contradicting the
claim that the event loop scans forward for the smallest free offset and
that "no pre-existing event at t is ever displaced or lost". -/
theorem c1_insert_displaces_counterexample :
    EventMap.insert c1PreMap 10 (.submit (.read 2))
        = [(10, .submit (.read 2))] ∧
    (10, REvent.submit (.read 1)) ∉ EventMap.insert c1PreMap 10 (.submit (.read 2)) := by
  constructor
  · rfl
  · decide

/-- **C1, amended.**  Event insertion in `PolicySimulator::run` performs no
collision scan: a batch of accesses requested at base time 10 is keyed at
`10 + idx` nanoseconds per enumeration index, so three events submitted at
time 10 into an empty map do obtain keys {10, 11, 12} in submission order;
but a single insertion at an occupied key replaces the event already stored
there (for every map consisting of one event at `t`, inserting at `t`
yields only the new event). -/
theorem c1_run_insertion_behaviour :
    (∀ a b c : Access,
      scheduleAccesses [] 10 [a, b, c]
        = [(10, .submit a), (11, .submit b), (12, .submit c)]) ∧
    (∀ (t : Time) (eOld eNew : REvent),
      EventMap.insert [(t, eOld)] t eNew = [(t, eNew)]) := by
  constructor
  · intro a b c
    rfl
  · intro t eOld eNew
    simp [EventMap.insert]

end Vivarium

namespace Vivarium

/-! ## Device latency model (`src/storage_stack/devices.rs`) -/

/-- `Op` from `src/storage_stack/devices.rs` (`Write = 0, Read`). -/
inductive Op where
  | write
  | read
deriving DecidableEq, Repr

/-- `Ap` (access pattern) from `src/storage_stack/devices.rs`
(`Random = 0, Sequential`). -/
inductive Ap where
  | random
  | sequential
deriving DecidableEq, Repr

/-- `Latencies` from `src/storage_stack/devices.rs`: one duration per
access pattern, in nanoseconds. -/
structure Latencies where
  random : Dur
  sequential : Dur
deriving DecidableEq, Repr

/-- Index a `Latencies` record by access pattern. -/
def Latencies.get (l : Latencies) : Ap → Dur
  | .random => l.random
  | .sequential => l.sequential

/-- `DeviceLatencyTable` from `src/storage_stack/devices.rs`: per
operation, a map from block size (bytes) to latencies.  Loaded entries are
whole microseconds (`Duration::from_micros`), hence multiples of 1000 ns. -/
structure DeviceLatencyTable where
  readTbl : List (Nat × Latencies)
  writeTbl : List (Nat × Latencies)
deriving DecidableEq, Repr

/-- The device model used throughout the embedding.

* `table` is the `Device::Custom(DeviceLatencyTable)` variant of
  `src/storage_stack/devices.rs`; its `read`/`write` do an exact table
  lookup (`dev.0[op].get(&bs).unwrap().0[ap]`).  The `Standard`, `Formula`
  and `Real` variants compute with `f32` arithmetic, OS entropy or real
  I/O timing and are not embedded.
* `sampleRead`/`sampleWrite`: Modelled from the spec: the
  `kind.sample(&DeviceAccessParams::read()/write())` calls of
  `StorageStack::queue_access` (`src/storage_stack/mod.rs:206-207`) refer
  to a sampler (`Device::sample`, `DeviceAccessParams`) that is absent
  from the sources; per the spec (§4.1) it draws a latency from the
  device's inverse-CDF latency model.  The embedding carries the drawn
  nanosecond value for each operation. -/
structure Device where
  table : DeviceLatencyTable
  sampleRead : Dur
  sampleWrite : Dur
deriving DecidableEq, Repr

/-- `BLOCK_SIZE_IN_MB` from `src/storage_stack/devices.rs`. -/
def BLOCK_SIZE_IN_MB : Nat := 4

/-- `BLOCK_SIZE_IN_B` from `src/storage_stack/devices.rs`. -/
def BLOCK_SIZE_IN_B : Nat := BLOCK_SIZE_IN_MB * 1024 * 1024

/-- `Device::read` (the `Custom` branch, `src/storage_stack/devices.rs:153-155`):
table lookup by block size then pattern; a missing key is an `unwrap`
panic, embedded as `none`. -/
def Device.read (d : Device) (bs : Nat) (ap : Ap) : Option Dur :=
  (lookupA d.table.readTbl bs).map (·.get ap)

/-- `Device::write` (the `Custom` branch, `src/storage_stack/devices.rs:208`). -/
def Device.write (d : Device) (bs : Nat) (ap : Ap) : Option Dur :=
  (lookupA d.table.writeTbl bs).map (·.get ap)

/-- Modelled from the spec: `DeviceAccessParams::read()/write()` select the
operation whose latency distribution is sampled (missing from src/). -/
structure DeviceAccessParams where
  op : Op
deriving DecidableEq, Repr

/-- Modelled from the spec: `Device::sample(params)` returns the latency
drawn from the device's latency model for the given operation; the drawn
values are the `sampleRead`/`sampleWrite` fields. -/
def Device.sample (d : Device) (p : DeviceAccessParams) : Dur :=
  match p.op with
  | .read => d.sampleRead
  | .write => d.sampleWrite

/-- `DeviceAccessParams::read()`. -/
def DeviceAccessParams.read : DeviceAccessParams := ⟨.read⟩

/-- `DeviceAccessParams::write()`. -/
def DeviceAccessParams.write : DeviceAccessParams := ⟨.write⟩

/-- `DeviceState` with the fields used by `src/storage_stack/mod.rs` and
`src/placement/frequency.rs` (`src/storage_stack/devices.rs:228-243`,
queue-admission fields as constructed in `src/config.rs:36-48`). -/
structure DeviceState where
  kind : Device
  free : Nat
  total : Nat
  reserved_until : Time
  current_queue_len : Nat
  max_queue_len : Nat
  max_q : Dur
  total_q : Dur
  total_req : Nat
  idle_time : Dur
deriving DecidableEq, Repr

/-! ## Storage stack messages (`src/storage_stack/mod.rs`) -/

/-- `Step` from `src/storage_stack/mod.rs`: the migration sub-protocol. -/
inductive Step where
  | moveInit (b : Block) (d : DiskId)
  | moveReadFinished (b : Block) (d : DiskId)
  | moveWriteFinished (b : Block)
deriving DecidableEq, Repr

/-- `StorageMsg` from `src/storage_stack/mod.rs`. -/
inductive StorageMsg where
  | init (a : Access)
  | finish (a : Access)
  | process (s : Step)
deriving DecidableEq, Repr

/-- `CacheMsg` from `src/cache/mod.rs`. -/
inductive CacheMsg where
  | get (b : Block)
  | put (b : Block)
  | readFinished (b : Block)
  | writeFinished (b : Block)
deriving DecidableEq, Repr

/-- `CacheMsg::is_get`. -/
def CacheMsg.is_get : CacheMsg → Bool
  | .get _ => true
  | _ => false

/-- `CacheMsg::is_put`. -/
def CacheMsg.is_put : CacheMsg → Bool
  | .put _ => true
  | _ => false

/-- `CacheMsg::block`. -/
def CacheMsg.block : CacheMsg → Block
  | .get b => b
  | .put b => b
  | .readFinished b => b
  | .writeFinished b => b

/-- `PlacementMsg` from `src/placement/mod.rs`. -/
inductive PlacementMsg where
  | fetched (b : Block)
  | written (b : Block)
  | migrate
deriving DecidableEq, Repr

/-- The crate-root `Event` type of the revision the storage stack,
placement policies and batch application compile against: the variants
those modules construct and match on (`Cache`, `Storage(StorageMsg)`,
`Application`, `PlacementPolicy`, `Terminate`). -/
inductive Event where
  | cache (m : CacheMsg)
  | storage (m : StorageMsg)
  | application (a : Access)
  | placementPolicy (m : PlacementMsg)
  | terminate
deriving DecidableEq, Repr

/-- `StorageError` from `src/storage_stack/mod.rs`. -/
inductive StorageError where
  | invalidBlock (b : Block)
  | blockIsBusy (b : Block) (msg : StorageMsg)
  | invalidDevice (d : DiskId)
deriving DecidableEq, Repr

/-- `StorageStack` from `src/storage_stack/mod.rs` with the fields its
`process`/`queue_access`/`finish_access` touch (the `cache` and `state`
fields of the Rust struct are not read or written by these functions and
are omitted). -/
structure StorageStack where
  blocks : List (Block × DiskId)
  devices : List (DiskId × DeviceState)
  blocks_on_hold : List (Block × Time)
deriving DecidableEq, Repr

/-- `StorageStack::queue_access` (`src/storage_stack/mod.rs:175-255`).

Returns `none` on the panic path (`now.duration_since(reserved_until)
.unwrap()` fails when the device idles with `reserved_until` in the
future); otherwise the mutated stack together with the `Result` of the
Rust function (error, or the emitted `(time, event)` pairs). -/
def StorageStack.queue_access (s : StorageStack) (access : Access) (now : Time)
    (is_part_of_migration : Option DiskId) (msg : StorageMsg) :
    Option (StorageStack × Except StorageError (List (Time × Event))) :=
  match lookupA s.blocks access.block with
  | none => some (s, .error (.invalidBlock access.block))
  | some dev =>
    match lookupA s.devices dev with
    | none => some (s, .error (.invalidDevice dev))
    | some dev_stats =>
      if dev_stats.current_queue_len < dev_stats.max_queue_len then
        -- Enqueue and immediately submit request
        let tUntil := now +
          match access with
          | .read _ => dev_stats.kind.sample .read
          | .write _ => dev_stats.kind.sample .write
        -- If nothing was submitted the device was idling
        if dev_stats.current_queue_len = 0 ∧ now < dev_stats.reserved_until then
          none
        else
          let dev_stats :=
            { dev_stats with
              idle_time :=
                if dev_stats.current_queue_len = 0 then
                  dev_stats.idle_time + (now - dev_stats.reserved_until)
                else dev_stats.idle_time }
          let dev_stats :=
            { dev_stats with
              reserved_until := tUntil
              current_queue_len := dev_stats.current_queue_len + 1
              max_q := max dev_stats.max_q (tUntil - now)
              total_q := dev_stats.total_q + (tUntil - now)
              total_req := dev_stats.total_req + 1 }
          let s := { s with devices := updateA s.devices dev dev_stats }
          some (s, .ok (
            match access, is_part_of_migration with
            | .read b, none =>
                [(tUntil, .storage (.finish access)),
                 (tUntil, .cache (.readFinished b))]
            | .write b, none =>
                [(tUntil, .storage (.finish access)),
                 (tUntil, .cache (.writeFinished b))]
            | .read b, some to_disk =>
                [(tUntil, .storage (.process (.moveReadFinished b to_disk)))]
            | .write b, some _ =>
                [(tUntil, .storage (.process (.moveWriteFinished b)))]))
      else
        -- Enqueue the access for later revision into the stack
        some (s, .ok [(dev_stats.reserved_until, .storage msg)])

/-- `StorageStack::finish_access` (`src/storage_stack/mod.rs:116-173`):
decrement the device's queue length; `none` embeds the `unwrap` panics
(unknown block or device), the `usize` underflow when the queue length is
already 0, and the `assert!(current_queue_len < max_queue_len)` failure.
The source's `now` parameter is unread (it fed only the commented-out
refill logic) and is dropped here. -/
def StorageStack.finish_access (s : StorageStack) (access : Access) :
    Option StorageStack :=
  match lookupA s.blocks access.block with
  | none => none
  | some d =>
    match lookupA s.devices d with
    | none => none
    | some dev =>
      match dev.current_queue_len with
      | 0 => none
      | n + 1 =>
        let dev := { dev with current_queue_len := n }
        if dev.current_queue_len < dev.max_queue_len then
          some { s with devices := updateA s.devices d dev }
        else none

/-- `StorageStack::process` (`src/storage_stack/mod.rs:58-114`). -/
def StorageStack.process (s : StorageStack) (msg : StorageMsg) (now : Time) :
    Option (StorageStack × Except StorageError (List (Time × Event))) :=
  match msg with
  | .init access =>
    -- Postpone accesses to blocks which currently are being moved
    match lookupA s.blocks_on_hold access.block with
    | some time => some (s, .ok [(time, .storage (.init access))])
    | none => s.queue_access access now none msg
  | .finish access =>
    (s.finish_access access).map fun s' =>
      (s', .ok [(now, .placementPolicy
        (match access with
         | .read b => .fetched b
         | .write b => .written b))])
  | .process step =>
    match step with
    | .moveReadFinished b to_disk =>
      (s.finish_access (.read b)).bind fun s' =>
        match lookupA s'.blocks b with
        | none => none
        | some _ =>
          let s' := { s' with blocks := updateA s'.blocks b to_disk }
          s'.queue_access (.write b) now (some to_disk) msg
    | .moveInit b to_disk =>
      if (lookupA s.blocks_on_hold b).isSome then
        some (s, .error (.blockIsBusy b (.process (.moveInit b to_disk))))
      else
        s.queue_access (.read b) now (some to_disk) msg
    | .moveWriteFinished b =>
      let s' := { s with blocks_on_hold := eraseA s.blocks_on_hold b }
      (s'.finish_access (.write b)).map fun s'' => (s'', .ok [])

end Vivarium

namespace Vivarium

/-! ## Helper lemmas about the association-list operations -/

/-- Looking up the key just written by `updateA` yields the written value. -/
theorem lookupA_updateA_self {α β : Type} [DecidableEq α]
    (l : List (α × β)) (k : α) (v : β) :
    lookupA (updateA l k v) k = some v := by
  induction l with
  | nil => simp [updateA, lookupA]
  | cons hd tl ih =>
    by_cases h : hd.1 = k
    · simp [updateA, lookupA, h]
    · simp [updateA, lookupA, h, ih]

/-- `queue_access` never produces a `BlockIsBusy` error: its only error
paths are the `InvalidBlock` / `InvalidDevice` lookups. -/
theorem queue_access_no_busy (s : StorageStack) (a : Access) (now : Time)
    (mig : Option DiskId) (msg : StorageMsg) (s' : StorageStack)
    (e : StorageError)
    (h : s.queue_access a now mig msg = some (s', .error e)) :
    ∀ b m, e ≠ .blockIsBusy b m := by
  intro b m hcontra
  subst hcontra
  unfold StorageStack.queue_access at h
  repeat' split at h
  all_goals simp at h
/-! ## C2 — `blocks_on_hold` is never populated (`queue_access` migration read) -/

/-- C2 failing input: one block `1` homed on disk `0`, idle device, no
holds.  The `MoveInit(1, 1)` servicing performs the migration read. -/
def c2Stack : StorageStack :=
  { blocks := [(1, 0)]
    devices := [(0,
      { kind := { table := ⟨[], []⟩, sampleRead := 500, sampleWrite := 800 }
        free := 0, total := 8, reserved_until := 0
        current_queue_len := 0, max_queue_len := 128
        max_q := 0, total_q := 0, total_req := 0, idle_time := 0 })]
    blocks_on_hold := [] }

/-- **C2, divergence witness.**  Servicing `Process(MoveInit(1, 1))` at
time 0 queues the migration read and emits
`(until, Storage(Process(MoveReadFinished(1, 1))))` with `until = 500`,
but leaves `blocks_on_hold` empty: no code path in
`src/storage_stack/mod.rs` ever inserts into `blocks_on_hold`, although
`Init` defers on it, `MoveInit` errors on it and `MoveWriteFinished`
removes from it.  The claim (and spec §4.2) requires
`blocks_on_hold[1] = 500` to be recorded at migration-read start. -/
theorem c2_migration_read_records_no_hold :
    (c2Stack.process (.process (.moveInit 1 1)) 0).map
        (fun r => (r.1.blocks_on_hold, r.2))
      = some ([], .ok [(500, .storage (.process (.moveReadFinished 1 1)))]) := by
  rfl

/-! ## C3 — `reserved_until` is assigned, not maxed -/

/-- The latency drawn for an access's operation
(`match access { Read => sample(read), Write => sample(write) }` in
`queue_access`, `src/storage_stack/mod.rs:205-208`). -/
def sampleFor (d : Device) : Access → Dur
  | .read _ => d.sample .read
  | .write _ => d.sample .write

/-- C3 counterexample input: the device is reserved until 100 with one
access in flight; a read with sampled latency 10 is submitted at 50. -/
def c3Stack : StorageStack :=
  { blocks := [(1, 0)]
    devices := [(0,
      { kind := { table := ⟨[], []⟩, sampleRead := 10, sampleWrite := 20 }
        free := 4, total := 8, reserved_until := 100
        current_queue_len := 1, max_queue_len := 128
        max_q := 0, total_q := 0, total_req := 0, idle_time := 0 })]
    blocks_on_hold := [] }

/-- **C3, counterexample.**  An accepted submission at `now = 50` with
sampled completion `until = 60` leaves `reserved_until = 60`, strictly
below its previous value 100 — the code assigns `until`
(`src/storage_stack/mod.rs:213`) rather than `max(old, until)`, so
`reserved_until` decreases when a shorter access is accepted while the
device is reserved further into the future. -/
theorem c3_reserved_until_decreases_counterexample :
    (c3Stack.process (.init (.read 1)) 50).map
        (fun r => (lookupA r.1.devices 0).map (·.reserved_until))
      = some (some 60) ∧ (60 : Time) < 100 := by
  exact ⟨rfl, by decide⟩

/-- **C3, amended.**  For every accepted submission through
`queue_access` (queue below `max_queue_len`, no idle-accounting panic),
the device's new `reserved_until` equals `until = now + L` with `L` the
latency sampled for the access's operation — not `max(old, until)`; in
particular it is non-decreasing precisely when `old ≤ now + L`. -/
theorem c3_reserved_until_assigned (s : StorageStack) (access : Access)
    (now : Time) (mig : Option DiskId) (msg : StorageMsg)
    (dev : DiskId) (ds : DeviceState)
    (hb : lookupA s.blocks access.block = some dev)
    (hd : lookupA s.devices dev = some ds)
    (hq : ds.current_queue_len < ds.max_queue_len)
    (hp : ¬(ds.current_queue_len = 0 ∧ now < ds.reserved_until)) :
    ((s.queue_access access now mig msg).map
        (fun r => (lookupA r.1.devices dev).map (·.reserved_until)))
      = some (some (now + sampleFor ds.kind access)) ∧
    (∀ r, s.queue_access access now mig msg = some r →
      ∀ ds', lookupA r.1.devices dev = some ds' →
        (ds.reserved_until ≤ ds'.reserved_until ↔
          ds.reserved_until ≤ now + sampleFor ds.kind access)) := by
  have hmain : (s.queue_access access now mig msg).map
      (fun r => (lookupA r.1.devices dev).map (·.reserved_until))
      = some (some (now + sampleFor ds.kind access)) := by
    cases access with
    | read b =>
      simp only [Access.block] at hb
      cases mig with
      | none =>
        simp [StorageStack.queue_access, Access.block, hb, hd, hq, hp,
          lookupA_updateA_self, sampleFor]
      | some t =>
        simp [StorageStack.queue_access, Access.block, hb, hd, hq, hp,
          lookupA_updateA_self, sampleFor]
    | write b =>
      simp only [Access.block] at hb
      cases mig with
      | none =>
        simp [StorageStack.queue_access, Access.block, hb, hd, hq, hp,
          lookupA_updateA_self, sampleFor]
      | some t =>
        simp [StorageStack.queue_access, Access.block, hb, hd, hq, hp,
          lookupA_updateA_self, sampleFor]
  refine ⟨hmain, ?_⟩
  intro r hr ds' hds'
  rw [hr] at hmain
  simp [hds'] at hmain
  rw [hmain]

/-- **C3, witness** for the amended theorem at the counterexample input:
the hypotheses are satisfiable and the accepted submission yields
`reserved_until = 50 + 10`. -/
theorem c3_reserved_until_assigned_witness :
    ((c3Stack.queue_access (.read 1) 50 none (.init (.read 1))).map
        (fun r => (lookupA r.1.devices 0).map (·.reserved_until)))
      = some (some 60) := by
  have h := c3_reserved_until_assigned c3Stack (.read 1) 50 none
    (.init (.read 1)) 0
    { kind := { table := ⟨[], []⟩, sampleRead := 10, sampleWrite := 20 }
      free := 4, total := 8, reserved_until := 100
      current_queue_len := 1, max_queue_len := 128
      max_q := 0, total_q := 0, total_req := 0, idle_time := 0 }
    (by rfl) (by rfl) (by decide) (by decide)
  exact h.1

end Vivarium

namespace Vivarium

/-! ## C6 — `MoveInit`, `BlockIsBusy` and the full-queue deferral -/

/-- C6 counterexample input: block `1` homed on disk `0` whose queue is
full (`current_queue_len = max_queue_len = 1`), no holds. -/
def c6FullStack : StorageStack :=
  { blocks := [(1, 0)]
    devices := [(0,
      { kind := { table := ⟨[], []⟩, sampleRead := 10, sampleWrite := 20 }
        free := 2, total := 8, reserved_until := 777
        current_queue_len := 1, max_queue_len := 1
        max_q := 0, total_q := 0, total_req := 0, idle_time := 0 })]
    blocks_on_hold := [] }

/-- **C6, counterexample.**  `Process(MoveInit(1, 1))` on a held-free
block whose source queue is full does *not* enqueue a migration read: the
storage state is returned unchanged and the only emitted event re-submits
the `MoveInit` itself at the device's `reserved_until`
(`src/storage_stack/mod.rs:249-254`), so the claim's unconditional
"otherwise it enqueues a migration read on b's source disk" fails. -/
theorem c6_full_queue_counterexample :
    c6FullStack.process (.process (.moveInit 1 1)) 5
        = some (c6FullStack,
            .ok [(777, .storage (.process (.moveInit 1 1)))]) ∧
    Event.storage (.process (.moveReadFinished 1 1)) ∉
      ([(777, Event.storage (.process (.moveInit 1 1)))].map Prod.snd) := by
  exact ⟨rfl, by decide⟩

/-- **C6, amended.**  `process(Process(MoveInit(b, to)))` fails with
`BlockIsBusy` exactly when `b` is in `blocks_on_hold`, and in that case
(indeed on every `BlockIsBusy` outcome) the storage state is returned
unchanged.  When `b` is not on hold, `b` is homed and the source device's
queue is below `max_queue_len` (and the idle accounting does not panic),
a migration read is enqueued on the source disk: its queue length grows
by one and `(now + L_read, Storage(Process(MoveReadFinished(b, to))))` is
emitted; when the source queue is full, the `MoveInit` is instead
re-emitted unchanged at the device's `reserved_until`. -/
theorem c6_moveInit_busy_iff (s : StorageStack) (b : Block) (toD : DiskId)
    (now : Time) :
    ((lookupA s.blocks_on_hold b).isSome →
      s.process (.process (.moveInit b toD)) now
        = some (s, .error (.blockIsBusy b (.process (.moveInit b toD))))) ∧
    (∀ s' e, s.process (.process (.moveInit b toD)) now = some (s', .error e) →
      (∃ b' m, e = .blockIsBusy b' m) →
      (lookupA s.blocks_on_hold b).isSome ∧ s' = s) ∧
    (∀ d ds, lookupA s.blocks_on_hold b = none →
      lookupA s.blocks b = some d →
      lookupA s.devices d = some ds →
      ds.current_queue_len < ds.max_queue_len →
      ¬(ds.current_queue_len = 0 ∧ now < ds.reserved_until) →
      (s.process (.process (.moveInit b toD)) now).map
          (fun r => (r.2, (lookupA r.1.devices d).map (·.current_queue_len)))
        = some (.ok [(now + ds.kind.sample .read,
              .storage (.process (.moveReadFinished b toD)))],
            some (ds.current_queue_len + 1))) ∧
    (∀ d ds, lookupA s.blocks_on_hold b = none →
      lookupA s.blocks b = some d →
      lookupA s.devices d = some ds →
      ¬ds.current_queue_len < ds.max_queue_len →
      s.process (.process (.moveInit b toD)) now
        = some (s, .ok [(ds.reserved_until,
            .storage (.process (.moveInit b toD)))])) := by
  refine ⟨?_, ?_, ?_, ?_⟩
  · intro hheld
    simp [StorageStack.process, hheld]
  · intro s' e hres ⟨b', m, he⟩
    subst he
    by_cases hheld : (lookupA s.blocks_on_hold b).isSome
    · refine ⟨hheld, ?_⟩
      simp [StorageStack.process, hheld] at hres
      exact hres.1.symm
    · exfalso
      rw [Option.not_isSome_iff_eq_none] at hheld
      simp [StorageStack.process, hheld] at hres
      exact queue_access_no_busy s (.read b) now (some toD)
        (.process (.moveInit b toD)) s' _ hres b' m rfl
  · intro d ds hheld hblk hdev hq hp
    have hstep : s.process (.process (.moveInit b toD)) now
        = s.queue_access (.read b) now (some toD)
            (.process (.moveInit b toD)) := by
      simp [StorageStack.process, hheld]
    rw [hstep]
    unfold StorageStack.queue_access
    simp only [Access.block, hblk, hdev]
    rw [if_pos hq, if_neg hp]
    simp [lookupA_updateA_self]
  · intro d ds hheld hblk hdev hq
    have hstep : s.process (.process (.moveInit b toD)) now
        = s.queue_access (.read b) now (some toD)
            (.process (.moveInit b toD)) := by
      simp [StorageStack.process, hheld]
    rw [hstep]
    unfold StorageStack.queue_access
    simp only [Access.block, hblk, hdev]
    rw [if_neg hq]

end Vivarium

namespace Vivarium

/-- **C6, witness** for the amended theorem: on `c2Stack` (block 1 homed
on the idle disk 0, no holds) the `MoveInit(1, 1)` servicing enqueues the
migration read and emits `MoveReadFinished(1, 1)` at time 500. -/
theorem c6_moveInit_busy_iff_witness :
    (c2Stack.process (.process (.moveInit 1 1)) 0).map
        (fun r => (r.2, (lookupA r.1.devices 0).map (·.current_queue_len)))
      = some (.ok [(500, .storage (.process (.moveReadFinished 1 1)))],
          some 1) := by
  have h := (c6_moveInit_busy_iff c2Stack 1 1 0).2.2.1 0
    { kind := { table := ⟨[], []⟩, sampleRead := 500, sampleWrite := 800 }
      free := 0, total := 8, reserved_until := 0
      current_queue_len := 0, max_queue_len := 128
      max_q := 0, total_q := 0, total_req := 0, idle_time := 0 }
    (by rfl) (by rfl) (by rfl) (by decide) (by decide)
  exact h

end Vivarium

namespace Vivarium

/-!
## Cache layer (`src/cache/`)

The cache module of the sources compiles against a crate-root `Event`
whose `Storage` variant carries an `Access` (`src/cache/mod.rs:124` etc.),
unlike the storage stack's `Event` whose `Storage` carries a
`StorageMsg`; the cache module's event type is therefore embedded
separately as `CEvent`.
-/

/-- The events emitted by `CacheLogic::process` (`src/cache/mod.rs`):
`Application(Access)`, `Storage(Access)` and re-queued `Cache(CacheMsg)`
messages. -/
inductive CEvent where
  | storage (a : Access)
  | application (a : Access)
  | cache (m : CacheMsg)
deriving DecidableEq, Repr

/-- `Fifo` from `src/cache/fifo.rs`: a membership set plus an
insertion-ordered queue (`push_front` at the head, `pop_back` from the
tail). -/
structure Fifo where
  blocks : List Block
  queue : List Block
  on_device : Device
  capacity : Nat
deriving DecidableEq, Repr

/-- `Fifo::get`: pure membership test, zero duration on a hit. -/
def Fifo.get (s : Fifo) (b : Block) : Option Dur :=
  if b ∈ s.blocks then some 0 else none

/-- `Fifo::put`: insert at the front unless already present; zero
duration. -/
def Fifo.put (s : Fifo) (b : Block) : Dur × Fifo :=
  (0, if b ∈ s.blocks then s
      else { s with queue := b :: s.queue, blocks := hsInsert s.blocks b })

/-- `Fifo::evict`: pop the queue tail and drop it from the set. -/
def Fifo.evict (s : Fifo) : Option Block × Fifo :=
  match s.queue.getLast? with
  | none => (none, s)
  | some b => (some b,
      { s with queue := s.queue.dropLast, blocks := hsRemove s.blocks b })

/-- `Fifo::len` (the queue length). -/
def Fifo.len (s : Fifo) : Nat := s.queue.length

/-- `Lru` from `src/cache/lru.rs`: a recency list, most recent at the
head. -/
structure Lru where
  entries : List Block
  capacity : Nat
  on_device : Device
deriving DecidableEq, Repr

/-- `Lru::get`: on a hit, move the block to the front and return the
cache device's read latency for a `BLOCK_SIZE_IN_B` random read (an
`unwrap` panic — `none` — if the device table lacks the key). -/
def Lru.get (s : Lru) (b : Block) : Option (Option Dur × Lru) :=
  if b ∈ s.entries then
    (s.on_device.read BLOCK_SIZE_IN_B .random).map
      (fun d => (some d, { s with entries := b :: s.entries.erase b }))
  else some (none, s)

/-- `Lru::put`: consult `get` (which already moves a resident block to
the front), push the block to the front on a miss, and return the cache
device's write latency for a `BLOCK_SIZE_IN_MB` random write (note: the
source passes the size in MiB here, not in bytes). -/
def Lru.put (s : Lru) (b : Block) : Option (Dur × Lru) :=
  (s.get b).bind fun r =>
    let s' := if r.1.isNone then { r.2 with entries := b :: r.2.entries } else r.2
    (s'.on_device.write BLOCK_SIZE_IN_MB .random).map (fun d => (d, s'))

/-- `Lru::evict`: pop the least recently used tail entry. -/
def Lru.evict (s : Lru) : Option Block × Lru :=
  match s.entries.getLast? with
  | none => (none, s)
  | some b => (some b, { s with entries := s.entries.dropLast })

/-- `Lru::len`. -/
def Lru.len (s : Lru) : Nat := s.entries.length

/-- The closed set of `Box<dyn Cache>` algorithms the configuration can
build (`src/config.rs:104-114`): `Fifo`, `Lru`, and the stateless `Noop`
(`src/cache/noop.rs`). -/
inductive Alg where
  | fifo (s : Fifo)
  | lru (s : Lru)
  | noop
deriving DecidableEq, Repr

/-- Dispatch `Cache::get` (`&mut self`; only `Lru` mutates, and only on a
hit). -/
def Alg.get : Alg → Block → Option (Option Dur × Alg)
  | .fifo s, b => some (s.get b, .fifo s)
  | .lru s, b => (s.get b).map (fun r => (r.1, .lru r.2))
  | .noop, _ => some (none, .noop)

/-- Dispatch `Cache::put`. -/
def Alg.put : Alg → Block → Option (Dur × Alg)
  | .fifo s, b => some ((s.put b).1, .fifo (s.put b).2)
  | .lru s, b => (s.put b).map (fun r => (r.1, .lru r.2))
  | .noop, _ => some (0, .noop)

/-- Dispatch `Cache::evict`. -/
def Alg.evict : Alg → Option Block × Alg
  | .fifo s => ((s.evict).1, .fifo (s.evict).2)
  | .lru s => ((s.evict).1, .lru (s.evict).2)
  | .noop => (none, .noop)

/-- Dispatch `Cache::len`. -/
def Alg.len : Alg → Nat
  | .fifo s => s.len
  | .lru s => s.len
  | .noop => 0

/-- Dispatch `Cache::capacity`. -/
def Alg.capacity : Alg → Nat
  | .fifo s => s.capacity
  | .lru s => s.capacity
  | .noop => 0

/-- `CacheLogic` from `src/cache/mod.rs:36-42`. -/
structure CacheLogic where
  in_eviction : List Block
  in_fetch : List Block
  cache : Alg
  queue_eviction : List CacheMsg
  queue_completion : List CacheMsg
deriving DecidableEq, Repr

/-- `CacheLogic::new`. -/
def CacheLogic.new (a : Alg) : CacheLogic :=
  { in_eviction := [], in_fetch := [], cache := a
    queue_eviction := [], queue_completion := [] }

/-- The `self.queue_eviction.pop_front().map(|m| (now, Event::Cache(m)))`
tail chained onto several emissions of `CacheLogic::process`. -/
def CacheLogic.drainOne (c : CacheLogic) (now : Time) :
    CacheLogic × List (Time × CEvent) :=
  match c.queue_eviction with
  | [] => (c, [])
  | m :: rest => ({ c with queue_eviction := rest }, [(now, .cache m)])

/-- `CacheLogic::process` (`src/cache/mod.rs:88-219`).  `none` embeds the
panics (`Lru`'s device-table `unwrap`s and the
`assert!(self.cache.len() <= self.cache.capacity())` in `ReadFinished`). -/
def CacheLogic.process (c : CacheLogic) (msg : CacheMsg) (now : Time) :
    Option (CacheLogic × List (Time × CEvent)) :=
  match msg with
  | .get block =>
    (c.cache.get block).bind fun r =>
      match r.1 with
      | some dur =>
        -- Check if block is already cached
        let c := { c with cache := r.2 }
        let d := c.drainOne now
        some (d.1, (now + dur, .application (.read block)) :: d.2)
      | none =>
        let c := { c with cache := r.2 }
        -- If block is already being fetched only enqueue
        if block ∈ c.in_fetch then
          some ({ c with queue_completion := c.queue_completion ++ [msg] }, [])
        else
          -- If necessary evict entry
          if c.cache.len + c.in_eviction.length + c.in_fetch.length + 1
              > c.cache.capacity then
            let c := { c with queue_eviction := c.queue_eviction ++ [msg] }
            let e := c.cache.evict
            match e.1 with
            | some evicted =>
              -- evict entry and wait for completion
              some ({ c with
                      cache := e.2
                      in_eviction := hsInsert c.in_eviction evicted },
                [(now, .storage (.write evicted))])
            | none =>
              if c.cache.capacity = 0 then
                some ({ c with cache := e.2 }, [(now, .storage (.read block))])
              else some ({ c with cache := e.2 }, [])
          else
            -- Fetch block from storage
            some ({ c with
                    queue_completion := c.queue_completion ++ [msg]
                    in_fetch := hsInsert c.in_fetch block },
              [(now, .storage (.read block))])
  | .put block =>
    -- If necessary evict entry
    if c.cache.len + c.in_eviction.length + c.in_fetch.length + 1
        > c.cache.capacity then
      let c := { c with queue_eviction := c.queue_eviction ++ [msg] }
      let e := c.cache.evict
      match e.1 with
      | some evicted =>
        some ({ c with
                cache := e.2
                in_eviction := hsInsert c.in_eviction evicted },
          [(now, .storage (.write evicted))])
      | none =>
        if c.cache.capacity = 0 then
          some ({ c with cache := e.2 }, [(now, .storage (.write block))])
        else some ({ c with cache := e.2 }, [])
    else
      (c.cache.put block).bind fun r =>
        let c := { c with cache := r.2 }
        let d := c.drainOne now
        some (d.1, (now + r.1, .application (.write block)) :: d.2)
  | .readFinished block =>
    if c.cache.capacity = 0 then
      some (c, [(now, .application (.read block))])
    else
      let c := { c with in_fetch := hsRemove c.in_fetch block }
      (c.cache.put block).bind fun r =>
        let c := { c with cache := r.2 }
        if c.cache.len ≤ c.cache.capacity then
          let evs := (c.queue_completion.filter
              (fun m => m.is_get && m.block == block)).map
            (fun m => (now, CEvent.application (.read m.block)))
          -- Search through queued messages and remove according read
          let c := { c with
            queue_completion := c.queue_completion.filter
              (fun m => !m.is_get || !(m.block == block)) }
          let d := c.drainOne now
          some (d.1, evs ++ d.2)
        else none
  | .writeFinished block =>
    if c.cache.capacity = 0 then
      some (c, [(now, .application (.write block))])
    else
      let c := { c with in_eviction := hsRemove c.in_eviction block }
      let d := c.drainOne now
      some (d.1, d.2)

/-- Process a timed message sequence through `CacheLogic`, propagating
panics. -/
def CacheLogic.run (c : CacheLogic) : List (CacheMsg × Time) → Option CacheLogic
  | [] => some c
  | (m, t) :: rest => (c.process m t).bind fun r => CacheLogic.run r.1 rest

end Vivarium

namespace Vivarium

/-! ## C4 — cache-hit service time -/

/-- C4 device: a loaded latency table with a 100 µs random read at the
4 MiB block size and a 50 µs random write at the (MiB-valued) put key. -/
def c4Dev : Device :=
  { table := { readTbl := [(4194304, ⟨100000, 100000⟩)]
               writeTbl := [(4, ⟨50000, 50000⟩)] }
    sampleRead := 0, sampleWrite := 0 }

/-- C4 counterexample input: an LRU cache holding block 1. -/
def c4Cache : CacheLogic :=
  CacheLogic.new (.lru { entries := [1], capacity := 8, on_device := c4Dev })

/-- **C4, counterexample.**  A `Get(1)` hit on the LRU cache at `now = 0`
emits `Application(Read(1))` at time 100000, not at `now`: `Lru::get`
returns the cache device's read latency (`src/cache/lru.rs:36-39`), which
`CacheLogic::process` adds to `now` (`src/cache/mod.rs:98`).  The claim
that every algorithm's hit is scheduled exactly at `now` fails for LRU. -/
theorem c4_lru_hit_latency_counterexample :
    c4Cache.process (.get 1) 0
        = some (c4Cache, [(100000, .application (.read 1))]) ∧
    (100000 : Time) ≠ 0 := by
  exact ⟨rfl, by decide⟩

/-- **C4, amended.** On a resident block, `Get(b)` emits
`Application(Read(b))` as its first event at `now + dur` where `dur` is
the algorithm's hit duration: zero for FIFO (`Fifo::get` returns
`Duration::ZERO`), the cache device's 4 MiB random-read latency for LRU,
while Noop (`Noop::get` is constantly `None`) never hits. -/
theorem c4_hit_service_time (now : Time) :
    (∀ (ev ft : List Block) (qe qc : List CacheMsg) (fs : Fifo) (b : Block),
      b ∈ fs.blocks →
      ((CacheLogic.mk ev ft (.fifo fs) qe qc).process (.get b) now).map
          (fun r => r.2.head?)
        = some (some (now, .application (.read b)))) ∧
    (∀ (ev ft : List Block) (qe qc : List CacheMsg) (ls : Lru) (b : Block)
        (L : Dur),
      b ∈ ls.entries →
      ls.on_device.read BLOCK_SIZE_IN_B .random = some L →
      ((CacheLogic.mk ev ft (.lru ls) qe qc).process (.get b) now).map
          (fun r => r.2.head?)
        = some (some (now + L, .application (.read b)))) ∧
    (∀ b : Block, Alg.noop.get b = some (none, .noop)) := by
  refine ⟨?_, ?_, ?_⟩
  · intro ev ft qe qc fs b hb
    simp [CacheLogic.process, Alg.get, Fifo.get, hb, CacheLogic.drainOne]
  · intro ev ft qe qc ls b L hb hL
    simp [CacheLogic.process, Alg.get, Lru.get, hb, hL, CacheLogic.drainOne]
  · intro b
    rfl

/-- **C4, witness**: the FIFO clause at a concrete resident block, and
the LRU clause at the `c4Cache` input. -/
theorem c4_hit_service_time_witness :
    ((CacheLogic.mk [] [] (.fifo ⟨[7], [7], c4Dev, 4⟩) [] []).process
          (.get 7) 3).map
        (fun r => r.2.head?)
      = some (some (3, .application (.read 7))) ∧
    (c4Cache.process (.get 1) 0).map (fun r => r.2.head?)
      = some (some (0 + 100000, .application (.read 1))) := by
  constructor
  · exact (c4_hit_service_time 3).1 [] [] [] [] ⟨[7], [7], c4Dev, 4⟩ 7
      (by decide)
  · exact (c4_hit_service_time 0).2.1 [] [] [] [] ⟨[1], 8, c4Dev⟩ 1 100000
      (by decide) (by rfl)

end Vivarium

namespace Vivarium

/-! ## C10 — bypass mode (capacity 0): `queue_eviction` only grows -/

/-- **C10.**  In bypass mode (the Noop algorithm, capacity 0, as built
when no cache is configured, `src/config.rs:58-61`): a `Get` always
misses and — like every `Put` — is appended to `queue_eviction` *before*
the bypass `Storage` event is emitted; `ReadFinished` and `WriteFinished`
return before the drain step and leave the whole state unchanged; and
consequently, over any run from the fresh Noop cache state,
`queue_eviction` accumulates exactly the processed `Get`/`Put` messages
in order and is never drained. -/
theorem c10_bypass_queue_eviction_only_grows :
    (∀ (ev : List Block) (qe qc : List CacheMsg) (b : Block) (now : Time),
      (CacheLogic.mk ev [] .noop qe qc).process (.get b) now
        = some (CacheLogic.mk ev [] .noop (qe ++ [.get b]) qc,
            [(now, .storage (.read b))])) ∧
    (∀ (ev : List Block) (qe qc : List CacheMsg) (b : Block) (now : Time),
      (CacheLogic.mk ev [] .noop qe qc).process (.put b) now
        = some (CacheLogic.mk ev [] .noop (qe ++ [.put b]) qc,
            [(now, .storage (.write b))])) ∧
    (∀ (c : CacheLogic) (b : Block) (now : Time), c.cache = .noop →
      c.process (.readFinished b) now
        = some (c, [(now, .application (.read b))])) ∧
    (∀ (c : CacheLogic) (b : Block) (now : Time), c.cache = .noop →
      c.process (.writeFinished b) now
        = some (c, [(now, .application (.write b))])) ∧
    (∀ (msgs : List (CacheMsg × Time)) (ev : List Block)
        (qe qc : List CacheMsg),
      CacheLogic.run (CacheLogic.mk ev [] .noop qe qc) msgs
        = some (CacheLogic.mk ev [] .noop
            (qe ++ (msgs.map Prod.fst).filter
              (fun m => m.is_get || m.is_put)) qc)) := by
  have hget : ∀ (ev : List Block) (qe qc : List CacheMsg) (b : Block)
      (now : Time),
      (CacheLogic.mk ev [] .noop qe qc).process (.get b) now
        = some (CacheLogic.mk ev [] .noop (qe ++ [.get b]) qc,
            [(now, .storage (.read b))]) := by
    intro ev qe qc b now
    unfold CacheLogic.process
    simp [Alg.get, Alg.len, Alg.capacity, Alg.evict]
  have hput : ∀ (ev : List Block) (qe qc : List CacheMsg) (b : Block)
      (now : Time),
      (CacheLogic.mk ev [] .noop qe qc).process (.put b) now
        = some (CacheLogic.mk ev [] .noop (qe ++ [.put b]) qc,
            [(now, .storage (.write b))]) := by
    intro ev qe qc b now
    unfold CacheLogic.process
    simp [Alg.len, Alg.capacity, Alg.evict]
  have hrf : ∀ (c : CacheLogic) (b : Block) (now : Time), c.cache = .noop →
      c.process (.readFinished b) now
        = some (c, [(now, .application (.read b))]) := by
    intro c b now hc
    cases c
    cases hc
    rfl
  have hwf : ∀ (c : CacheLogic) (b : Block) (now : Time), c.cache = .noop →
      c.process (.writeFinished b) now
        = some (c, [(now, .application (.write b))]) := by
    intro c b now hc
    cases c
    cases hc
    rfl
  refine ⟨hget, hput, hrf, hwf, ?_⟩
  intro msgs
  induction msgs with
  | nil => intro ev qe qc; simp [CacheLogic.run]
  | cons hd tl ih =>
    intro ev qe qc
    obtain ⟨m, t⟩ := hd
    cases m with
    | get b =>
      rw [CacheLogic.run, hget ev qe qc b t]
      simp only [Option.some_bind]
      rw [ih ev (qe ++ [CacheMsg.get b]) qc]
      simp [CacheMsg.is_get]
    | put b =>
      rw [CacheLogic.run, hput ev qe qc b t]
      simp only [Option.some_bind]
      rw [ih ev (qe ++ [CacheMsg.put b]) qc]
      simp [CacheMsg.is_put]
    | readFinished b =>
      rw [CacheLogic.run, hrf _ b t rfl]
      simp only [Option.some_bind]
      rw [ih ev qe qc]
      simp [CacheMsg.is_get, CacheMsg.is_put]
    | writeFinished b =>
      rw [CacheLogic.run, hwf _ b t rfl]
      simp only [Option.some_bind]
      rw [ih ev qe qc]
      simp [CacheMsg.is_get, CacheMsg.is_put]

/-- **C10, witness**: the `ReadFinished` bypass clause at a concrete
Noop-cache state — the state (in particular `queue_eviction`) is
untouched and the `Application` event fires. -/
theorem c10_bypass_readfinished_witness :
    (CacheLogic.mk [] [] .noop [] []).process (.readFinished 4) 9
      = some (CacheLogic.mk [] [] .noop [] [],
          [(9, .application (.read 4))]) := by
  exact c10_bypass_queue_eviction_only_grows.2.2.1
    (CacheLogic.mk [] [] .noop [] []) 4 9 rfl

end Vivarium

namespace Vivarium

/-! ## C5 — the cache space-accounting invariant -/

/-- The space accounting of the claim:
`|resident| + |in_eviction| + |in_fetch|`. -/
def CacheLogic.occupancy (c : CacheLogic) : Nat :=
  c.cache.len + c.in_eviction.length + c.in_fetch.length

/-- `HashSet::insert` grows the set by at most one element. -/
theorem hsInsert_length_le {α : Type} [DecidableEq α] (l : List α) (a : α) :
    (hsInsert l a).length ≤ l.length + 1 := by
  unfold hsInsert
  split
  · exact Nat.le_succ _
  · exact Nat.le_refl _

/-- `HashSet::remove` does not grow the set. -/
theorem hsRemove_length_le {α : Type} [DecidableEq α] (l : List α) (a : α) :
    (hsRemove l a).length ≤ l.length := by
  unfold hsRemove
  by_cases h : a ∈ l
  · rw [List.length_erase_of_mem h]; omega
  · rw [List.erase_of_not_mem h]

/-- `Cache::get` keeps the algorithm's length and capacity. -/
theorem Alg.get_len_cap (a : Alg) (b : Block) (r : Option Dur) (a' : Alg)
    (h : a.get b = some (r, a')) :
    a'.len = a.len ∧ a'.capacity = a.capacity := by
  cases a with
  | fifo s =>
    simp only [Alg.get, Option.some.injEq, Prod.mk.injEq] at h
    obtain ⟨h1, h2⟩ := h
    subst h2
    exact ⟨rfl, rfl⟩
  | lru s =>
    simp only [Alg.get, Lru.get] at h
    by_cases hm : b ∈ s.entries
    · rw [if_pos hm] at h
      cases hL : s.on_device.read BLOCK_SIZE_IN_B .random with
      | none => rw [hL] at h; cases h
      | some L =>
        rw [hL] at h
        simp only [Option.map_some', Option.some.injEq, Prod.mk.injEq] at h
        obtain ⟨h1, h2⟩ := h
        subst h2
        have hpos : 0 < s.entries.length := List.length_pos.mpr
          (by intro he; rw [he] at hm; cases hm)
        refine ⟨?_, rfl⟩
        simp [Alg.len, Lru.len, List.length_erase_of_mem hm]
        omega
    · rw [if_neg hm] at h
      simp only [Option.map_some', Option.some.injEq, Prod.mk.injEq] at h
      obtain ⟨h1, h2⟩ := h
      subst h2
      exact ⟨rfl, rfl⟩
  | noop =>
    simp only [Alg.get, Option.some.injEq, Prod.mk.injEq] at h
    obtain ⟨h1, h2⟩ := h
    subst h2
    exact ⟨rfl, rfl⟩

theorem Alg.put_len_cap (a : Alg) (b : Block) (d : Dur) (a' : Alg)
    (h : a.put b = some (d, a')) :
    a'.len ≤ a.len + 1 ∧ a'.capacity = a.capacity := by
  cases a with
  | fifo s =>
    simp only [Alg.put, Option.some.injEq, Prod.mk.injEq] at h
    obtain ⟨h1, h2⟩ := h
    subst h2
    unfold Fifo.put
    by_cases hm : b ∈ s.blocks
    · simp [hm, Alg.len, Alg.capacity, Fifo.len]
    · simp [hm, Alg.len, Alg.capacity, Fifo.len]
  | lru s =>
    simp only [Alg.put, Lru.put, Lru.get] at h
    by_cases hm : b ∈ s.entries
    · rw [if_pos hm] at h
      cases hL : s.on_device.read BLOCK_SIZE_IN_B .random with
      | none => rw [hL] at h; cases h
      | some L =>
        rw [hL] at h
        simp only [Option.map_some', Option.some_bind, Option.isNone_some,
          Bool.false_eq_true, if_false] at h
        cases hW : Device.write s.on_device BLOCK_SIZE_IN_MB .random with
        | none => rw [hW] at h; cases h
        | some w =>
          rw [hW] at h
          simp only [Option.map_some', Option.some.injEq, Prod.mk.injEq] at h
          obtain ⟨h1, h2⟩ := h
          subst h2
          have hpos : 0 < s.entries.length := List.length_pos.mpr
            (by intro he; rw [he] at hm; cases hm)
          refine ⟨?_, rfl⟩
          simp [Alg.len, Lru.len, List.length_erase_of_mem hm]
    · rw [if_neg hm] at h
      simp only [Option.some_bind, Option.isNone_none, if_true] at h
      cases hW : Device.write s.on_device BLOCK_SIZE_IN_MB .random with
      | none => rw [hW] at h; cases h
      | some w =>
        rw [hW] at h
        simp only [Option.map_some', Option.some.injEq, Prod.mk.injEq] at h
        obtain ⟨h1, h2⟩ := h
        subst h2
        refine ⟨?_, rfl⟩
        simp [Alg.len, Lru.len]
  | noop =>
    simp only [Alg.put, Option.some.injEq, Prod.mk.injEq] at h
    obtain ⟨h1, h2⟩ := h
    subst h2
    exact ⟨by simp [Alg.len], rfl⟩

theorem Alg.evict_len_cap (a : Alg) :
    (a.evict).2.capacity = a.capacity ∧
    ((a.evict).1 = none → (a.evict).2.len = a.len) ∧
    (∀ v, (a.evict).1 = some v → (a.evict).2.len + 1 = a.len) := by
  cases a with
  | fifo s =>
    cases hq : s.queue.getLast? with
    | none => simp [Alg.evict, Fifo.evict, hq]
    | some v =>
      have hne : s.queue ≠ [] := by
        intro he; rw [he] at hq; simp at hq
      have hpos : 0 < s.queue.length := List.length_pos.mpr hne
      simp [Alg.evict, Fifo.evict, hq, Alg.len, Fifo.len, Alg.capacity,
        List.length_dropLast]
      omega
  | lru s =>
    cases hq : s.entries.getLast? with
    | none => simp [Alg.evict, Lru.evict, hq]
    | some v =>
      have hne : s.entries ≠ [] := by
        intro he; rw [he] at hq; simp at hq
      have hpos : 0 < s.entries.length := List.length_pos.mpr hne
      simp [Alg.evict, Lru.evict, hq, Alg.len, Lru.len, Alg.capacity,
        List.length_dropLast]
      omega
  | noop => simp [Alg.evict]

theorem CacheLogic.drainOne_state (c : CacheLogic) (now : Time) :
    (c.drainOne now).1.cache = c.cache ∧
    (c.drainOne now).1.in_eviction = c.in_eviction ∧
    (c.drainOne now).1.in_fetch = c.in_fetch := by
  cases hq : c.queue_eviction with
  | nil => simp [CacheLogic.drainOne, hq]
  | cons m rest => simp [CacheLogic.drainOne, hq]

end Vivarium

namespace Vivarium

/-! ### Per-message preservation of the space accounting -/

theorem c5_get_step (c : CacheLogic) (block : Block) (now : Time)
    (c' : CacheLogic) (evs : List (Time × CEvent))
    (hstep : c.process (.get block) now = some (c', evs))
    (hinv : c.occupancy ≤ c.cache.capacity) :
    c'.occupancy ≤ c'.cache.capacity := by
  simp only [CacheLogic.process] at hstep
  cases hg : c.cache.get block with
  | none => rw [hg] at hstep; simp at hstep
  | some r =>
    obtain ⟨rv, a1⟩ := r
    obtain ⟨hlen, hcap1⟩ := Alg.get_len_cap c.cache block rv a1 hg
    rw [hg] at hstep
    simp only [Option.some_bind] at hstep
    cases rv with
    | some dur =>
      simp only [Option.some.injEq, Prod.mk.injEq] at hstep
      obtain ⟨hc', -⟩ := hstep
      subst hc'
      obtain ⟨d1, d2, d3⟩ := CacheLogic.drainOne_state
        { c with cache := a1 } now
      unfold CacheLogic.occupancy at hinv ⊢
      rw [d1, d2, d3]
      show a1.len + c.in_eviction.length + c.in_fetch.length ≤ a1.capacity
      omega
    | none =>
      by_cases hf : block ∈ c.in_fetch
      · rw [if_pos hf] at hstep
        simp only [Option.some.injEq, Prod.mk.injEq] at hstep
        obtain ⟨hc', -⟩ := hstep
        subst hc'
        unfold CacheLogic.occupancy at hinv ⊢
        show a1.len + c.in_eviction.length + c.in_fetch.length ≤ a1.capacity
        omega
      · rw [if_neg hf] at hstep
        by_cases hsp : a1.len + c.in_eviction.length + c.in_fetch.length + 1
            > a1.capacity
        · rw [if_pos hsp] at hstep
          obtain ⟨hcap2, hnone, hsome⟩ := Alg.evict_len_cap a1
          cases he : a1.evict.1 with
          | some v =>
            rw [he] at hstep
            simp only [Option.some.injEq, Prod.mk.injEq] at hstep
            obtain ⟨hc', -⟩ := hstep
            subst hc'
            have hv := hsome v he
            have hl := hsInsert_length_le c.in_eviction v
            unfold CacheLogic.occupancy at hinv ⊢
            show a1.evict.2.len + (hsInsert c.in_eviction v).length
                + c.in_fetch.length ≤ a1.evict.2.capacity
            rw [hcap2]
            omega
          | none =>
            rw [he] at hstep
            have hn := hnone he
            by_cases hc0 : a1.capacity = 0
            · rw [if_pos hc0] at hstep
              simp only [Option.some.injEq, Prod.mk.injEq] at hstep
              obtain ⟨hc', -⟩ := hstep
              subst hc'
              unfold CacheLogic.occupancy at hinv ⊢
              show a1.evict.2.len + c.in_eviction.length + c.in_fetch.length
                  ≤ a1.evict.2.capacity
              rw [hcap2]
              omega
            · rw [if_neg hc0] at hstep
              simp only [Option.some.injEq, Prod.mk.injEq] at hstep
              obtain ⟨hc', -⟩ := hstep
              subst hc'
              unfold CacheLogic.occupancy at hinv ⊢
              show a1.evict.2.len + c.in_eviction.length + c.in_fetch.length
                  ≤ a1.evict.2.capacity
              rw [hcap2]
              omega
        · rw [if_neg hsp] at hstep
          simp only [Option.some.injEq, Prod.mk.injEq] at hstep
          obtain ⟨hc', -⟩ := hstep
          subst hc'
          have hl := hsInsert_length_le c.in_fetch block
          unfold CacheLogic.occupancy at hinv ⊢
          show a1.len + c.in_eviction.length
              + (hsInsert c.in_fetch block).length ≤ a1.capacity
          omega


theorem c5_put_step (c : CacheLogic) (block : Block) (now : Time)
    (c' : CacheLogic) (evs : List (Time × CEvent))
    (hstep : c.process (.put block) now = some (c', evs))
    (hinv : c.occupancy ≤ c.cache.capacity) :
    c'.occupancy ≤ c'.cache.capacity := by
  simp only [CacheLogic.process] at hstep
  by_cases hsp : c.cache.len + c.in_eviction.length + c.in_fetch.length + 1
      > c.cache.capacity
  · rw [if_pos hsp] at hstep
    obtain ⟨hcap2, hnone, hsome⟩ := Alg.evict_len_cap c.cache
    cases he : c.cache.evict.1 with
    | some v =>
      rw [he] at hstep
      simp only [Option.some.injEq, Prod.mk.injEq] at hstep
      obtain ⟨hc', -⟩ := hstep
      subst hc'
      have hv := hsome v he
      have hl := hsInsert_length_le c.in_eviction v
      unfold CacheLogic.occupancy at hinv ⊢
      show c.cache.evict.2.len + (hsInsert c.in_eviction v).length
          + c.in_fetch.length ≤ c.cache.evict.2.capacity
      rw [hcap2]
      omega
    | none =>
      rw [he] at hstep
      have hn := hnone he
      by_cases hc0 : c.cache.capacity = 0
      · rw [if_pos hc0] at hstep
        simp only [Option.some.injEq, Prod.mk.injEq] at hstep
        obtain ⟨hc', -⟩ := hstep
        subst hc'
        unfold CacheLogic.occupancy at hinv ⊢
        show c.cache.evict.2.len + c.in_eviction.length + c.in_fetch.length
            ≤ c.cache.evict.2.capacity
        rw [hcap2]
        omega
      · rw [if_neg hc0] at hstep
        simp only [Option.some.injEq, Prod.mk.injEq] at hstep
        obtain ⟨hc', -⟩ := hstep
        subst hc'
        unfold CacheLogic.occupancy at hinv ⊢
        show c.cache.evict.2.len + c.in_eviction.length + c.in_fetch.length
            ≤ c.cache.evict.2.capacity
        rw [hcap2]
        omega
  · rw [if_neg hsp] at hstep
    cases hp : c.cache.put block with
    | none => rw [hp] at hstep; simp at hstep
    | some r =>
      obtain ⟨d, a1⟩ := r
      obtain ⟨hlen, hcap1⟩ := Alg.put_len_cap c.cache block d a1 hp
      rw [hp] at hstep
      simp only [Option.some_bind, Option.some.injEq, Prod.mk.injEq] at hstep
      obtain ⟨hc', -⟩ := hstep
      subst hc'
      obtain ⟨d1, d2, d3⟩ := CacheLogic.drainOne_state
        { c with cache := a1 } now
      unfold CacheLogic.occupancy at hinv ⊢
      rw [d1, d2, d3]
      show a1.len + c.in_eviction.length + c.in_fetch.length ≤ a1.capacity
      omega

theorem c5_rf_step (c : CacheLogic) (block : Block) (now : Time)
    (c' : CacheLogic) (evs : List (Time × CEvent))
    (hstep : c.process (.readFinished block) now = some (c', evs))
    (hinv : c.occupancy ≤ c.cache.capacity)
    (hf : 0 < c.cache.capacity → block ∈ c.in_fetch) :
    c'.occupancy ≤ c'.cache.capacity := by
  simp only [CacheLogic.process] at hstep
  by_cases hc0 : c.cache.capacity = 0
  · rw [if_pos hc0] at hstep
    simp only [Option.some.injEq, Prod.mk.injEq] at hstep
    obtain ⟨hc', -⟩ := hstep
    subst hc'
    exact hinv
  · rw [if_neg hc0] at hstep
    cases hp : c.cache.put block with
    | none => rw [hp] at hstep; simp at hstep
    | some r =>
      obtain ⟨d, a1⟩ := r
      obtain ⟨hlen, hcap1⟩ := Alg.put_len_cap c.cache block d a1 hp
      rw [hp] at hstep
      simp only [Option.some_bind] at hstep
      by_cases hassert : a1.len ≤ a1.capacity
      · rw [if_pos hassert] at hstep
        simp only [Option.some.injEq, Prod.mk.injEq] at hstep
        obtain ⟨hc', -⟩ := hstep
        subst hc'
        obtain ⟨d1, d2, d3⟩ := CacheLogic.drainOne_state _ now
        unfold CacheLogic.occupancy at hinv ⊢
        rw [d1, d2, d3]
        have hmem := hf (Nat.pos_of_ne_zero hc0)
        have herase := List.length_erase_of_mem hmem
        have hftpos : 0 < c.in_fetch.length := List.length_pos.mpr
          (by intro he; rw [he] at hmem; cases hmem)
        show a1.len + c.in_eviction.length
            + (hsRemove c.in_fetch block).length ≤ a1.capacity
        unfold hsRemove
        omega
      · rw [if_neg hassert] at hstep
        cases hstep

theorem c5_wf_step (c : CacheLogic) (block : Block) (now : Time)
    (c' : CacheLogic) (evs : List (Time × CEvent))
    (hstep : c.process (.writeFinished block) now = some (c', evs))
    (hinv : c.occupancy ≤ c.cache.capacity) :
    c'.occupancy ≤ c'.cache.capacity := by
  simp only [CacheLogic.process] at hstep
  by_cases hc0 : c.cache.capacity = 0
  · rw [if_pos hc0] at hstep
    simp only [Option.some.injEq, Prod.mk.injEq] at hstep
    obtain ⟨hc', -⟩ := hstep
    subst hc'
    exact hinv
  · rw [if_neg hc0] at hstep
    simp only [Option.some.injEq, Prod.mk.injEq] at hstep
    obtain ⟨hc', -⟩ := hstep
    subst hc'
    obtain ⟨d1, d2, d3⟩ := CacheLogic.drainOne_state
      { c with in_eviction := hsRemove c.in_eviction block } now
    unfold CacheLogic.occupancy at hinv ⊢
    rw [d1, d2, d3]
    have hl := hsRemove_length_le c.in_eviction block
    show c.cache.len + (hsRemove c.in_eviction block).length
        + c.in_fetch.length ≤ c.cache.capacity
    omega

/-- C5 counterexample trace: a `Get(1)` puts block 1 in `in_fetch`,
then two `ReadFinished` messages for blocks never fetched (2 and 3) each
insert a resident block without leaving `in_fetch`. -/
def c5Start : CacheLogic :=
  CacheLogic.new (.lru { entries := [], capacity := 2, on_device := c4Dev })

/-- The C5 counterexample message trace. -/
def c5Msgs : List (CacheMsg × Time) :=
  [(.get 1, 0), (.readFinished 2, 1), (.readFinished 3, 2)]

/-- **C5, counterexample.**  Starting from the empty LRU cache of
capacity 2, the transition sequence `Get(1)`, `ReadFinished(2)`,
`ReadFinished(3)` (each a completed `CacheLogic::process` call, no
assertion fires) reaches occupancy
`|resident| + |in_eviction| + |in_fetch| = 3 > 2`: a `ReadFinished` for a
block not in `in_fetch` inserts a resident without an accounting slot, so
the invariant fails for arbitrary message sequences. -/
theorem c5_spurious_readfinished_counterexample :
    (CacheLogic.run c5Start c5Msgs).map
        (fun c => (c.occupancy, c.cache.capacity)) = some (3, 2) ∧
    ¬(3 ≤ 2) := by
  exact ⟨rfl, by decide⟩

/-- **C5, amended.**  For every cache with non-zero capacity K, the
space-accounting invariant `|resident| + |in_eviction| + |in_fetch| ≤ K`
is preserved by every completed `CacheLogic::process` transition
*provided* a `ReadFinished(b)` is only processed while `b ∈ in_fetch` (as
holds for storage-generated completions, which exist only for issued
fetches); spurious `ReadFinished` messages can violate it.  By induction
from the empty cache state, the invariant then holds after every
transition of such a run. -/
theorem c5_space_invariant (c : CacheLogic) (msg : CacheMsg) (now : Time)
    (c' : CacheLogic) (evs : List (Time × CEvent))
    (hcap : 0 < c.cache.capacity)
    (hinv : c.occupancy ≤ c.cache.capacity)
    (hrf : ∀ b, msg = .readFinished b → b ∈ c.in_fetch)
    (hstep : c.process msg now = some (c', evs)) :
    c'.occupancy ≤ c'.cache.capacity := by
  cases msg with
  | get b => exact c5_get_step c b now c' evs hstep hinv
  | put b => exact c5_put_step c b now c' evs hstep hinv
  | readFinished b =>
    exact c5_rf_step c b now c' evs hstep hinv (fun _ => hrf b rfl)
  | writeFinished b => exact c5_wf_step c b now c' evs hstep hinv

/-- **C5, witness** for the amended theorem: a `Get(5)` miss on an empty
FIFO cache of capacity 1 completes and preserves the invariant. -/
theorem c5_space_invariant_witness :
    (CacheLogic.mk [] [5] (.fifo ⟨[], [], c4Dev, 1⟩) []
        [CacheMsg.get 5]).occupancy
      ≤ (CacheLogic.mk [] [5] (.fifo ⟨[], [], c4Dev, 1⟩) []
        [CacheMsg.get 5]).cache.capacity := by
  exact c5_space_invariant (CacheLogic.new (.fifo ⟨[], [], c4Dev, 1⟩))
    (.get 5) 0 _ [(0, .storage (.read 5))] (by decide) (by decide)
    (fun b h => by cases h) (by rfl)

end Vivarium

namespace Vivarium

/-!
## Result channel messages (`src/result_csv.rs`) and the batch
application (`src/application/zipf.rs`)
-/

/-- `OpsInfo`: the latencies of one batch's operations. -/
structure OpsInfo where
  all : List Dur
deriving DecidableEq, Repr

/-- `MovementInfo` from `src/result_csv.rs` (fields `from`/`to` renamed
`fromDisk`/`toDisk`: `from` is a Lean keyword). -/
structure MovementInfo where
  fromDisk : DiskId
  toDisk : DiskId
  size : Nat
deriving DecidableEq, Repr

/-- The `ResMsg` variants sent by the components under verification:
`Application` (from `BatchApp::done`) and `Policy` (from
`FrequencyPolicy::migrate`). -/
inductive ResMsg where
  | application (now : Time) (interval : Dur) (writes : OpsInfo)
      (reads : OpsInfo)
  | policy (now : Time) (moved : List MovementInfo)
deriving DecidableEq, Repr

/-- `BatchApp` from `src/application/zipf.rs:117-131`.

The random access generation (`StdRng` + Zipf/uniform `f64` sampling
through `RandomAccessSequence`) is not embeddable; it is modelled as the
abstract access stream `gen` with `consumed` counting draws, which is
exactly the information `start` consumes from the RNG.  The progress
spinner is display-only and omitted. -/
structure BatchApp where
  size : Nat
  gen : Nat → Access
  consumed : Nat
  current_reqs : List (Access × (Time × Nat))
  batch : Nat
  interval : Dur
  write_latency : List Dur
  read_latency : List Dur
  iteration : Nat
  cur_iteration : Nat

/-- `BatchApp::start` (`src/application/zipf.rs:181-202`): draw `batch`
accesses, record their issue time and multiplicity in `current_reqs`,
and emit each as a `Cache` event at `now + idx` nanoseconds. -/
def BatchApp.start (s : BatchApp) (now : Time) :
    BatchApp × List (Time × Event) :=
  let evs := (List.range s.batch).map (fun i => s.gen (s.consumed + i))
  let s := { s with consumed := s.consumed + s.batch }
  let s := evs.foldl (fun acc a =>
      match lookupA acc.current_reqs a with
      | some (t0, k) =>
          { acc with current_reqs := updateA acc.current_reqs a (t0, k + 1) }
      | none =>
          { acc with current_reqs := updateA acc.current_reqs a (now, 1) }) s
  (s, evs.enum.map (fun ie =>
    (now + ie.1,
      match ie.2 with
      | .read b => Event.cache (.get b)
      | .write b => Event.cache (.put b))))

/-- `BatchApp::done` (`src/application/zipf.rs:204-261`): account the
completed access, and when the batch has drained either emit the batch's
result record and start the next batch at `now + interval`, or emit
`Terminate` when no iterations remain.  `none` embeds the panics
(`current_reqs.get_mut(..).unwrap()`, the `usize` underflow of a zero
multiplicity, and `duration_since(..).expect("Negative Time")`).  The
third component is the list of messages sent on the result channel. -/
def BatchApp.done (s : BatchApp) (access : Access) (now : Time) :
    Option (BatchApp × List (Time × Event) × List ResMsg) :=
  match lookupA s.current_reqs access with
  | none => none
  | some (when_issued, cnt) =>
    match cnt with
    | 0 => none
    | n + 1 =>
      let s :=
        if n = 0 then { s with current_reqs := eraseA s.current_reqs access }
        else { s with current_reqs := updateA s.current_reqs access (when_issued, n) }
      if now < when_issued then none
      else
        let s : BatchApp :=
          match access with
          | .read _ =>
              { s with read_latency := s.read_latency ++ [now - when_issued] }
          | .write _ =>
              { s with write_latency := s.write_latency ++ [now - when_issued] }
        if s.current_reqs.length = 0 ∧ s.cur_iteration + 1 < s.iteration then
          -- END OF BATCH
          let writes := s.write_latency
          let reads := s.read_latency
          let s := { s with
            write_latency := []
            read_latency := []
            cur_iteration := s.cur_iteration + 1 }
          let r := s.start (now + s.interval)
          some (r.1, r.2, [ResMsg.application now s.interval ⟨writes⟩ ⟨reads⟩])
        else
          if s.current_reqs.length = 0 then
            some (s, [(now, Event.terminate)], [])
          else
            some (s, [], [])

/-- Every event emitted by `BatchApp::start` is scheduled at or after the
requested start time. -/
theorem BatchApp.start_times_ge (s : BatchApp) (now : Time) :
    ∀ p ∈ (s.start now).2, now ≤ p.1 := by
  intro p hp
  simp only [BatchApp.start, List.mem_map] at hp
  obtain ⟨ie, -, hpe⟩ := hp
  rw [← hpe]
  exact Nat.le_add_right now ie.1

end Vivarium

namespace Vivarium

/-- Every event of a started batch, as a boolean `all`-check: scheduled
at or after the requested start time. -/
theorem BatchApp.start_all_ge (s : BatchApp) (t : Time) :
    ((s.start t).2.all (fun p => decide (t ≤ p.1))) = true := by
  rw [List.all_eq_true]
  intro p hp
  exact decide_eq_true (BatchApp.start_times_ge s t p hp)

/-- C7 counterexample input: the final (and only) iteration's batch of
one read, in flight since time 0. -/
def c7FinalApp : BatchApp :=
  { size := 1, gen := fun _ => .read 1, consumed := 1
    current_reqs := [(.read 1, (0, 1))], batch := 1, interval := 1000
    write_latency := [], read_latency := [], iteration := 1
    cur_iteration := 0 }

/-- **C7, counterexample.**  When the last in-flight access of the final
iteration completes, `BatchApp::done` returns only `(now, Terminate)` and
sends *nothing* on the result channel — the `tx.send` lives exclusively
in the `cur_iteration + 1 < iteration` branch
(`src/application/zipf.rs:222-252`), so the final batch's result record
is dropped, contradicting the claim that a record is emitted for the
final batch before `Terminate`. -/
theorem c7_final_batch_no_record_counterexample :
    (c7FinalApp.done (.read 1) 5).map (fun r => (r.2.1, r.2.2))
      = some ([(5, Event.terminate)], ([] : List ResMsg)) := by
  rfl

/-- **C7, amended.**  When `BatchApp::done` drains the batch (the last
in-flight access completes): if further iterations remain it sends the
batch's result record (the accumulated write/read latencies including
the just-finished access) and returns the next batch's events, all
scheduled at or after `now + interval`; on the final iteration it
returns only `(now, Terminate)` and sends no record. -/
theorem c7_done_batch_end (s : BatchApp) (access : Access) (w now : Time)
    (hreq : s.current_reqs = [(access, (w, 1))])
    (hw : w ≤ now) :
    (s.cur_iteration + 1 < s.iteration →
      (s.done access now).map
          (fun r => (r.2.2, r.2.1.all (fun p => decide (now + s.interval ≤ p.1))))
        = some ([ResMsg.application now s.interval
            ⟨if access.is_read then s.write_latency
             else s.write_latency ++ [now - w]⟩
            ⟨if access.is_read then s.read_latency ++ [now - w]
             else s.read_latency⟩], true)) ∧
    (¬(s.cur_iteration + 1 < s.iteration) →
      (s.done access now).map (fun r => (r.2.1, r.2.2))
        = some ([(now, Event.terminate)], ([] : List ResMsg))) := by
  have hnl : ¬ now < w := Nat.not_lt.mpr hw
  constructor
  · intro hiter
    cases access with
    | read b =>
      unfold BatchApp.done
      rw [hreq]
      simp [lookupA, eraseA, hnl, hiter, Access.is_read, BatchApp.start_all_ge]
    | write b =>
      unfold BatchApp.done
      rw [hreq]
      simp [lookupA, eraseA, hnl, hiter, Access.is_read, BatchApp.start_all_ge]
  · intro hiter
    cases access with
    | read b =>
      unfold BatchApp.done
      rw [hreq]
      simp [lookupA, eraseA, hnl, hiter, Access.is_read]
    | write b =>
      unfold BatchApp.done
      rw [hreq]
      simp [lookupA, eraseA, hnl, hiter, Access.is_read]

/-- C7 witness input: two iterations, so the first batch's completion
emits the record and the next batch. -/
def c7MidApp : BatchApp :=
  { size := 1, gen := fun _ => .read 1, consumed := 1
    current_reqs := [(.read 1, (0, 1))], batch := 1, interval := 1000
    write_latency := [], read_latency := [], iteration := 2
    cur_iteration := 0 }

/-- **C7, witness** for the amended theorem: with an iteration left, the
drained batch sends its record and the next batch starts no earlier than
`now + interval`. -/
theorem c7_done_batch_end_witness :
    (c7MidApp.done (.read 1) 5).map
        (fun r => (r.2.2, r.2.1.all (fun p => decide (5 + (1000 : Dur) ≤ p.1))))
      = some ([ResMsg.application 5 1000 ⟨[]⟩ ⟨[5]⟩], true) := by
  have h := (c7_done_batch_end c7MidApp (.read 1) 0 5 rfl (by decide)).1
    (by decide)
  exact h

end Vivarium

namespace Vivarium

/-!
## `FrequencyPolicy::migrate` (`src/placement/frequency.rs`)

The per-disk `DoublePriorityQueue<Block, u64>` is embedded as an
association list of `(block, priority)` pairs; the crate's unspecified
order among equal priorities is resolved towards the earlier entry.  The
`f32` priority decay `*p = (*p as f32 * (1.0 - decay)) as u64` is
modelled by the abstract map `decayFn` (for `decay = 0` it is exactly the
identity on priorities below 2^24).  The unspecified `HashMap` iteration
order over `devices` is the association-list order, as everywhere in
this embedding.
-/

/-- `DoublePriorityQueue::peek_max`: an entry of maximal priority
(earliest on ties). -/
def pqPeekMax : List (Block × Nat) → Option (Block × Nat)
  | [] => none
  | x :: xs =>
    match pqPeekMax xs with
    | none => some x
    | some y => if x.2 < y.2 then some y else some x

/-- `DoublePriorityQueue::peek_min`: an entry of minimal priority
(earliest on ties). -/
def pqPeekMin : List (Block × Nat) → Option (Block × Nat)
  | [] => none
  | x :: xs =>
    match pqPeekMin xs with
    | none => some x
    | some y => if y.2 < x.2 then some y else some x

/-- `DoublePriorityQueue::pop_max`. -/
def pqPopMax (l : List (Block × Nat)) :
    Option ((Block × Nat) × List (Block × Nat)) :=
  (pqPeekMax l).map (fun x => (x, l.erase x))

/-- `DoublePriorityQueue::pop_min`. -/
def pqPopMin (l : List (Block × Nat)) :
    Option ((Block × Nat) × List (Block × Nat)) :=
  (pqPeekMin l).map (fun x => (x, l.erase x))

/-- `DoublePriorityQueue::push`: update the priority of a present block,
append a new one. -/
def pqPush (l : List (Block × Nat)) (b : Block) (p : Nat) :
    List (Block × Nat) :=
  match lookupA l b with
  | some _ => updateA l b p
  | none => l ++ [(b, p)]

/-- `Duration::as_micros` on nanosecond durations. -/
def asMicros (d : Dur) : Int := ((d / 1000 : Nat) : Int)

/-- `FrequencyPolicy` (`src/placement/frequency.rs:19-29`): per-disk
priority queues, the idle-time snapshot of the previous pass,
`reactiveness`, the decay map (see the section comment) and the pass
interval.  The unused `_low_threshold`/`_high_threshold` are omitted. -/
structure FrequencyPolicy where
  blocks : List (DiskId × List (Block × Nat))
  idle_disks : List (DiskId × Dur)
  reactiveness : Nat
  decayFn : Nat → Nat
  interval : Dur

/-- The mutable state threaded through a migration pass: the policy's
queues, the device map, the emitted events and the movement records. -/
structure MigCtx where
  blocks : List (DiskId × List (Block × Nat))
  devices : List (DiskId × DeviceState)
  msgs : List (Time × Event)
  movements : List MovementInfo

/-- The `for _ in 0..self.reactiveness` loop body of the migration pass
(`src/placement/frequency.rs:153-215`), for one disk pair: peek the
extremes, then either promote (pop A's max, note it for B, move a free
slot from B to A, emit `MoveInit`), swap both extremes, or stop.  `none`
embeds the `unwrap` panics (empty queues, missing map keys). -/
def migratePairLoop (now : Time) (diskA diskB : DiskId)
    (costA costB : Dur) :
    Nat → MigCtx → List (Block × Nat) → List (Block × Nat) →
    Option (MigCtx × List (Block × Nat) × List (Block × Nat))
  | 0, ctx, newA, newB => some (ctx, newA, newB)
  | fuel + 1, ctx, newA, newB =>
    match lookupA ctx.blocks diskA with
    | none => none
    | some qa =>
      match pqPeekMax qa with
      | none => none
      | some af =>
        match lookupA ctx.blocks diskB with
        | none => none
        | some qb =>
          match pqPeekMin qb with
          | none => none
          | some bf =>
            match lookupA ctx.devices diskB with
            | none => none
            | some stB =>
              if 0 < stB.free ∧
                  (af.2 : Int) * (asMicros costA - asMicros costB)
                    > asMicros (costA + costB) then
                -- Space is available for migration and should be used
                if qa = [] then
                  migratePairLoop now diskA diskB costA costB fuel ctx newA newB
                else
                  match pqPopMax qa with
                  | none => none
                  | some bq =>
                    let ctx := { ctx with
                      blocks := updateA ctx.blocks diskA bq.2
                      devices := updateA ctx.devices diskB
                        { stB with free := stB.free - 1 } }
                    match lookupA ctx.devices diskA with
                    | none => none
                    | some stA =>
                      let ctx := { ctx with
                        devices := updateA ctx.devices diskA
                          { stA with free := stA.free + 1 }
                        msgs := ctx.msgs ++ [(now, Event.storage
                          (.process (.moveInit bq.1.1 diskB)))] }
                      migratePairLoop now diskA diskB costA costB fuel ctx
                        newA (newB ++ [bq.1])
              else
                if qa = [] then some (ctx, newA, newB)
                else
                  if (af.2 : Int) * (asMicros costA - asMicros costB)
                      - (bf.2 : Int) * (asMicros costB - asMicros costA)
                      > 2 * asMicros (costA + costB) then
                    match pqPopMax qa with
                    | none => none
                    | some aq =>
                      let ctx := { ctx with
                        blocks := updateA ctx.blocks diskA aq.2 }
                      match lookupA ctx.blocks diskB with
                      | none => none
                      | some qb2 =>
                        match pqPopMin qb2 with
                        | none => none
                        | some bq =>
                          let ctx := { ctx with
                            blocks := updateA ctx.blocks diskB bq.2
                            msgs := ctx.msgs ++
                              [(now, Event.storage (.process
                                (.moveInit aq.1.1 diskB))),
                               (now, Event.storage (.process
                                (.moveInit bq.1.1 diskA)))] }
                          migratePairLoop now diskA diskB costA costB fuel
                            ctx (newA ++ [bq.1]) (newB ++ [aq.1])
                  else some (ctx, newA, newB)

/-- One ordered disk pair of the migration pass: estimate the costs, run
the reactiveness loop, then push the displaced blocks into their new
queues and record the two movement summaries
(`src/placement/frequency.rs:138-234`). -/
def migratePair (reactiveness : Nat) (now : Time) (diskA diskB : DiskId)
    (ctx : MigCtx) : Option MigCtx :=
  match lookupA ctx.devices diskA with
  | none => none
  | some stA =>
    match stA.kind.read BLOCK_SIZE_IN_B .random with
    | none => none
    | some costA =>
      match lookupA ctx.devices diskB with
      | none => none
      | some stB =>
        match stB.kind.write BLOCK_SIZE_IN_B .random with
        | none => none
        | some costB =>
          (migratePairLoop now diskA diskB costA costB reactiveness ctx
              [] []).bind fun r =>
            match lookupA r.1.blocks diskA with
            | none => none
            | some qa =>
              let ctx := { r.1 with
                blocks := updateA r.1.blocks diskA
                  (r.2.1.foldl (fun q (bp : Block × Nat) => pqPush q bp.1 bp.2) qa)
                movements := r.1.movements ++
                  [(⟨diskB, diskA, r.2.1.length⟩ : MovementInfo)] }
              match lookupA ctx.blocks diskB with
              | none => none
              | some qb =>
                some { ctx with
                  blocks := updateA ctx.blocks diskB
                    (r.2.2.foldl (fun q (bp : Block × Nat) => pqPush q bp.1 bp.2) qb)
                  movements := ctx.movements ++
                    [(⟨diskA, diskB, r.2.2.length⟩ : MovementInfo)] }

/-- Stable insertion into an idle-sorted list (ascending). -/
def insertSortedIdle (x : DiskId × Dur) :
    List (DiskId × Dur) → List (DiskId × Dur)
  | [] => [x]
  | y :: ys => if x.2 < y.2 then x :: y :: ys else y :: insertSortedIdle x ys

/-- `least_idling_disks.sort_by(...)`: a stable ascending sort by idle
delta. -/
def sortIdle (l : List (DiskId × Dur)) : List (DiskId × Dur) :=
  l.foldr insertSortedIdle []

/-- `FrequencyPolicy::migrate` (`src/placement/frequency.rs:102-252`).
Returns the updated policy, the updated device map, the emitted events
(the `MoveInit`s followed by the re-armed `Migrate` tick) and the
result-channel messages. -/
def FrequencyPolicy.migrate (pol : FrequencyPolicy)
    (devices : List (DiskId × DeviceState)) (now : Time) :
    Option (FrequencyPolicy × List (DiskId × DeviceState)
      × List (Time × Event) × List ResMsg) :=
  -- update idle disks numbers
  (devices.foldl (fun acc dev =>
      acc.bind fun li =>
        match lookupA li.2 dev.1 with
        | none => none
        | some prev =>
            some (li.1 ++ [(dev.1, dev.2.idle_time - prev)],
              updateA li.2 dev.1 dev.2.idle_time))
    (some ([], pol.idle_disks))).bind fun li =>
  let least_idling_disks := sortIdle li.1
  (least_idling_disks.foldl (fun acc pa =>
      acc.bind fun ctx =>
        (least_idling_disks.reverse.filter
            (fun s => decide (pa.2 < s.2))).foldl
          (fun acc2 pb => acc2.bind fun ctx2 =>
            migratePair pol.reactiveness now pa.1 pb.1 ctx2)
          (some ctx))
    (some ⟨pol.blocks, devices, [], []⟩)).bind fun final =>
  let decayed := final.blocks.map
    (fun q => (q.1, q.2.map (fun ip => (ip.1, pol.decayFn ip.2))))
  some ({ pol with blocks := decayed, idle_disks := li.2 },
    final.devices,
    final.msgs ++ [(now + pol.interval, Event.placementPolicy .migrate)],
    [ResMsg.policy now final.movements])

end Vivarium

namespace Vivarium

/-! ## C8 — the promotion step of a migration pass -/

/-- C8 counterexample, slow source device A: 2 µs 4 MiB random read. -/
def c8DevA : Device :=
  { table := ⟨[(4194304, ⟨2000, 2000⟩)], [(4194304, ⟨2500, 2500⟩)]⟩
    sampleRead := 0, sampleWrite := 0 }

/-- C8 counterexample, fast target device B: 1 µs 4 MiB random write. -/
def c8DevB : Device :=
  { table := ⟨[(4194304, ⟨900, 900⟩)], [(4194304, ⟨1000, 1000⟩)]⟩
    sampleRead := 0, sampleWrite := 0 }

/-- Disk 0 (A): least idle, 5 free blocks, holding hot block 7. -/
def c8StA : DeviceState :=
  { kind := c8DevA, free := 5, total := 10, reserved_until := 0
    current_queue_len := 0, max_queue_len := 128
    max_q := 0, total_q := 0, total_req := 0, idle_time := 10 }

/-- Disk 1 (B): most idle, 3 free blocks, holding cold block 8. -/
def c8StB : DeviceState :=
  { kind := c8DevB, free := 3, total := 10, reserved_until := 0
    current_queue_len := 0, max_queue_len := 128
    max_q := 0, total_q := 0, total_req := 0, idle_time := 50 }

/-- C8 counterexample policy: block 7 on disk 0 with frequency 100,
block 8 on disk 1 with frequency 1; `reactiveness = 1`, zero decay. -/
def c8Pol : FrequencyPolicy :=
  { blocks := [(0, [(7, 100)]), (1, [(8, 1)])]
    idle_disks := [(0, 0), (1, 0)]
    reactiveness := 1
    decayFn := fun p => p
    interval := 500 }

/-- **C8, counterexample.**  In the promotion step (`B.free > 0` and
`fA·(cost_A − cost_B) > cost_A + cost_B`, here `100·(2−1) > 3`), the
pass emits `Process(MoveInit(7, B))` but moves the free counters
*opposite* to the claim: the target B loses a free slot
(`state.free -= 1`, `src/placement/frequency.rs:173`, so 3 ↦ 2) while
the source A gains one (`cur_disk.free += 1`, frequency.rs:175, so
5 ↦ 6) — not "decrement A's free / increment B's free". -/
theorem c8_promotion_free_counters_counterexample :
    (c8Pol.migrate [(0, c8StA), (1, c8StB)] 77).map
        (fun r => ((lookupA r.2.1 0).map (·.free),
          (lookupA r.2.1 1).map (·.free), r.2.2.1))
      = some (some 6, some 2,
          [(77, Event.storage (.process (.moveInit 7 1))),
           (577, Event.placementPolicy .migrate)]) ∧
    ¬((6 : Nat) = 5 - 1) ∧ ¬((2 : Nat) = 3 + 1) := by
  exact ⟨rfl, by decide, by decide⟩

end Vivarium

namespace Vivarium

/-- **C8, amended.**  For an ordered pair (A, B) with A less idle than B
(A the sole hot disk, B holding a cold block so the extremes exist),
whenever B has free capacity and `fA·(cost_A − cost_B) > cost_A + cost_B`
(costs in whole microseconds; `cost_A` the 4 MiB random-read estimate at
A, `cost_B` the 4 MiB random-write estimate at B), the migration pass
pops the maximum-priority block from A's queue, pushes it into B's queue
(decayed, at the end of the pass), emits `Process(MoveInit(block, B))`
followed by the re-armed `Migrate` tick — and *increments A's* free
counter while *decrementing B's*: the moved block frees a slot on the
source and consumes one on the target (the direction stated by the claim
is reversed).  The movement summary records both directions of the
pair. -/
theorem c8_promotion_step
    (blkA blkB : Block) (fA f2 : Nat) (dsA dsB : DeviceState)
    (caUs cbUs : Nat) (decayFn : Nat → Nat) (interval : Dur) (now : Time)
    (hne : blkA ≠ blkB)
    (hidle : dsA.idle_time < dsB.idle_time)
    (hrd : dsA.kind.read BLOCK_SIZE_IN_B .random = some (caUs * 1000))
    (hwr : dsB.kind.write BLOCK_SIZE_IN_B .random = some (cbUs * 1000))
    (hfree : 0 < dsB.free)
    (hcond : (fA : Int) * ((caUs : Int) - (cbUs : Int))
        > (caUs : Int) + (cbUs : Int)) :
    (FrequencyPolicy.migrate
        ⟨[(0, [(blkA, fA)]), (1, [(blkB, f2)])], [(0, 0), (1, 0)], 1,
          decayFn, interval⟩
        [(0, dsA), (1, dsB)] now).map
        (fun r => ((lookupA r.2.1 0).map (·.free),
          (lookupA r.2.1 1).map (·.free),
          r.2.2.1,
          lookupA r.1.blocks 1,
          r.2.2.2))
      = some (some (dsA.free + 1), some (dsB.free - 1),
          [(now, Event.storage (.process (.moveInit blkA 1))),
           (now + interval, Event.placementPolicy .migrate)],
          some [(blkB, decayFn f2), (blkA, decayFn fA)],
          [ResMsg.policy now [⟨1, 0, 0⟩, ⟨0, 1, 1⟩]]) := by
  have hca : asMicros (caUs * 1000) = (caUs : Int) := by
    unfold asMicros
    rw [Nat.mul_div_cancel _ (by norm_num)]
  have hcb : asMicros (cbUs * 1000) = (cbUs : Int) := by
    unfold asMicros
    rw [Nat.mul_div_cancel _ (by norm_num)]
  have hsum : asMicros (caUs * 1000 + cbUs * 1000) = (caUs : Int) + cbUs := by
    unfold asMicros
    rw [← Nat.add_mul, Nat.mul_div_cancel _ (by norm_num)]
    push_cast
    rfl
  have hnotBA : ¬ dsB.idle_time < dsA.idle_time := Nat.not_lt.mpr
    (Nat.le_of_lt hidle)
  have hirr : ¬ dsA.idle_time < dsA.idle_time := Nat.lt_irrefl _
  have hirr2 : ¬ dsB.idle_time < dsB.idle_time := Nat.lt_irrefl _
  simp [FrequencyPolicy.migrate, migratePair, migratePairLoop, sortIdle,
    insertSortedIdle, lookupA, updateA, pqPeekMax, pqPeekMin, pqPopMax,
    pqPopMin, pqPush, hrd, hwr, hca, hcb, hsum, hidle, hnotBA, hirr, hirr2,
    hfree, hcond, hne, hne.symm]

/-- **C8, witness** for the amended theorem at the counterexample
fixtures (block 7 of frequency 100 on disk 0 promoted to disk 1). -/
theorem c8_promotion_step_witness :
    (FrequencyPolicy.migrate
        ⟨[(0, [(7, 100)]), (1, [(8, 1)])], [(0, 0), (1, 0)], 1,
          (fun p => p), 500⟩
        [(0, c8StA), (1, c8StB)] 77).map
        (fun r => ((lookupA r.2.1 0).map (·.free),
          (lookupA r.2.1 1).map (·.free),
          r.2.2.1,
          lookupA r.1.blocks 1,
          r.2.2.2))
      = some (some 6, some 2,
          [(77, Event.storage (.process (.moveInit 7 1))),
           (577, Event.placementPolicy .migrate)],
          some [(8, 1), (7, 100)],
          [ResMsg.policy 77 [⟨1, 0, 0⟩, ⟨0, 1, 1⟩]]) := by
  exact c8_promotion_step 7 8 100 1 c8StA c8StB 2 1 (fun p => p) 500 77
    (by decide) (by decide) (by rfl) (by rfl) (by decide) (by decide)

end Vivarium
